import Mathlib

/-!
# Verification of core claims of `rustic_core`

This file shallowly embeds the parts of `rustic_core` (crates/core) that the
claims C1-C10 are about, and proves or refutes each claim:

* the snapshot model and its `PartialEq`/`Ord` instances
  (`repofile/snapshotfile.rs`),
* `relevant_snapshots` of the copy engine (`commands/copy.rs`),
* `latest_n` snapshot selection (`repofile/snapshotfile.rs`),
* the indexer with its flush policy (`index/indexer.rs`),
* the prune planner: index normalization in `PrunePlan::new`, the per-pack
  decision in `decide_packs`, the `max_unused` computation in `decide_repack`,
  and `PackInfo::from_pack` (`commands/prune.rs`),
* the read coalescing of the restore executor (`commands/restore.rs`).

Machine integers of the source (`u8`/`u16`/`u32`/`u64`, chrono timestamps) are
modelled as `Nat`/`Int`; fallible operations (a Rust `panic!` such as an
unchecked division by zero) are modelled with `Option`.
-/

namespace RusticCore

/-! ## Snapshot model (`repofile/snapshotfile.rs`) -/

/-- A snapshot file.  `time` (a chrono `DateTime<Local>`) is modelled as an
integer timestamp, ids (`SnapshotId`, `TreeId`) as naturals.  The fields
carried here are the ones the verified claims are about; a cleared id or
parent is `0`/`none` (`SnapshotId::default()`). -/
structure SnapshotFile where
  id : Nat
  time : Int
  parent : Option Nat
  tree : Nat
  paths : List String
  hostname : String
  label : String
  tags : List String
deriving DecidableEq

/-- `impl Ord for SnapshotFile`: `self.time.cmp(&other.time)` — the ordering
compares the `time` field only. -/
def SnapshotFile.cmp (s1 s2 : SnapshotFile) : Ordering :=
  if s1.time < s2.time then Ordering.lt
  else if s1.time = s2.time then Ordering.eq
  else Ordering.gt

/-- `impl PartialEq for SnapshotFile`: `self.time.eq(&other.time)`. -/
def SnapshotFile.beqTime (s1 s2 : SnapshotFile) : Bool :=
  s1.time == s2.time

/-! ## Copy engine (`commands/copy.rs`) -/

/-- `CopySnapshot`: a snapshot together with its `relevant` flag. -/
structure CopySnapshot where
  sn : SnapshotFile
  relevant : Bool
deriving DecidableEq

/-- `relevant_snapshots` from `commands/copy.rs`: collect the destination
snapshots passing the filter into a `BTreeSet` and mark each source snapshot
as relevant iff the set does not contain it.  `BTreeSet::contains` decides
containment through the `Ord` instance of `SnapshotFile`, i.e. it looks for a
destination snapshot comparing as `Ordering::Equal`; the set is modelled by
the filtered list with exactly this containment test. -/
def relevantSnapshots (filter : SnapshotFile → Bool) (snaps : List SnapshotFile)
    (destSnaps : List SnapshotFile) : List CopySnapshot :=
  let snapshotsDest := destSnaps.filter filter
  snaps.map (fun sn =>
    { relevant := !(snapshotsDest.any (fun d => SnapshotFile.cmp d sn == Ordering.eq)),
      sn := sn })

/-- Spec-side definition for C1 (the spec's words, to be compared with the
code): two id-cleared snapshots agree on the whole tuple
`(time, hostname, label, paths, tags, tree, parent-cleared)`.  Since both
parents are cleared before the comparison the parent component always
agrees, so this is agreement on the six remaining fields. -/
def specCopyTupleEq (a b : SnapshotFile) : Prop :=
  a.time = b.time ∧ a.hostname = b.hostname ∧ a.label = b.label ∧
    a.paths = b.paths ∧ a.tags = b.tags ∧ a.tree = b.tree

instance : DecidablePred (fun p : SnapshotFile × SnapshotFile => specCopyTupleEq p.1 p.2) :=
  fun _ => by unfold specCopyTupleEq; infer_instance

instance (a b : SnapshotFile) : Decidable (specCopyTupleEq a b) := by
  unfold specCopyTupleEq; infer_instance

/-! ### Basic facts about the snapshot ordering -/

theorem ordering_beq_eq_iff (o : Ordering) : (o == Ordering.eq) = true ↔ o = Ordering.eq := by
  cases o <;> decide

theorem SnapshotFile.cmp_eq_iff (s1 s2 : SnapshotFile) :
    SnapshotFile.cmp s1 s2 = Ordering.eq ↔ s1.time = s2.time := by
  unfold SnapshotFile.cmp
  split
  · constructor
    · intro h; cases h
    · intro h; omega
  · split
    · simp [*]
    · constructor
      · intro h; cases h
      · intro h; omega

theorem SnapshotFile.cmp_lt_iff (s1 s2 : SnapshotFile) :
    SnapshotFile.cmp s1 s2 = Ordering.lt ↔ s1.time < s2.time := by
  unfold SnapshotFile.cmp
  split
  · simp [*]
  · split
    · constructor
      · intro h; cases h
      · intro h; omega
    · constructor
      · intro h; cases h
      · intro h; omega

theorem SnapshotFile.cmp_gt_iff (s1 s2 : SnapshotFile) :
    SnapshotFile.cmp s1 s2 = Ordering.gt ↔ s2.time < s1.time := by
  unfold SnapshotFile.cmp
  split
  · constructor
    · intro h; cases h
    · intro h; omega
  · split
    · constructor
      · intro h; cases h
      · intro h; omega
    · constructor
      · intro _; omega
      · intro _; rfl

/-! ### C1: relevance in the copy engine -/

/-- Example source snapshot for C1. -/
def c1Src : SnapshotFile :=
  { id := 1, time := 5, parent := none, tree := 10, paths := ["/a"],
    hostname := "alpha", label := "l1", tags := ["t1"] }

/-- Example destination snapshot for C1: same `time` as `c1Src` but different
hostname, label, paths, tags and tree. -/
def c1Dest : SnapshotFile :=
  { id := 2, time := 5, parent := none, tree := 11, paths := ["/b"],
    hostname := "beta", label := "l2", tags := ["t2"] }

/-- C1 (counterexample): `relevant_snapshots` marks `c1Src` as not relevant
although no destination snapshot agrees with it on the whole tuple
`(time, hostname, label, paths, tags, tree, parent-cleared)` — containment in
the destination set only compares `time`. -/
theorem c1_counterexample :
    relevantSnapshots (fun _ => true) [c1Src] [c1Dest] =
      [{ sn := c1Src, relevant := false }] ∧ ¬ specCopyTupleEq c1Dest c1Src := by
  constructor
  · rfl
  · intro h
    exact absurd h.2.1 (by decide)

/-- C1 (amended): in the copy engine a source snapshot is marked not relevant
exactly when the destination repository contains a filter-passing snapshot
with the same `time` — snapshot equality and ordering compare `time` only, so
set containment does not consult hostname, label, paths, tags, tree or
parent. -/
theorem c1_relevant_iff_dest_time (f : SnapshotFile → Bool)
    (snaps destSnaps : List SnapshotFile) (sn : SnapshotFile) (h : sn ∈ snaps) :
    ({ sn := sn, relevant := false } : CopySnapshot) ∈ relevantSnapshots f snaps destSnaps ↔
      ∃ d ∈ destSnaps, f d = true ∧ d.time = sn.time := by
  simp only [relevantSnapshots, List.mem_map, CopySnapshot.mk.injEq,
    List.any_eq_true, List.mem_filter, beq_iff_eq]
  constructor
  · rintro ⟨a, -, rfl, hrel⟩
    rw [Bool.not_eq_false', List.any_eq_true] at hrel
    obtain ⟨d, hd, hcmp⟩ := hrel
    rw [List.mem_filter] at hd
    refine ⟨d, hd.1, hd.2, ?_⟩
    exact (SnapshotFile.cmp_eq_iff d a).mp ((ordering_beq_eq_iff _).mp hcmp)
  · rintro ⟨d, hd, hf, ht⟩
    refine ⟨sn, h, rfl, ?_⟩
    rw [Bool.not_eq_false', List.any_eq_true]
    exact ⟨d, List.mem_filter.mpr ⟨hd, hf⟩,
      (ordering_beq_eq_iff _).mpr ((SnapshotFile.cmp_eq_iff d sn).mpr ht)⟩

/-- Witness for C1: concrete application of `c1_relevant_iff_dest_time`. -/
theorem c1_relevant_iff_dest_time_witness :
    c1Src ∈ [c1Src] ∧
      (({ sn := c1Src, relevant := false } : CopySnapshot) ∈
          relevantSnapshots (fun _ => true) [c1Src] [c1Dest] ↔
        ∃ d ∈ [c1Dest], (fun _ : SnapshotFile => true) d = true ∧ d.time = c1Src.time) :=
  ⟨by decide,
    c1_relevant_iff_dest_time (fun _ => true) [c1Src] [c1Dest] c1Src (by decide)⟩

/-! ### C3: snapshot ordering -/

/-- First example snapshot for C3. -/
def c3A : SnapshotFile :=
  { id := 7, time := 42, parent := none, tree := 1, paths := ["/x"],
    hostname := "h1", label := "", tags := [] }

/-- Second example snapshot for C3: same `time` as `c3A`, different id. -/
def c3B : SnapshotFile :=
  { id := 8, time := 42, parent := none, tree := 2, paths := ["/y"],
    hostname := "h2", label := "", tags := [] }

/-- C3 (counterexample): two distinct snapshots with equal time and distinct
ids compare as `Ordering::Equal` — the ordering does not break ties by id. -/
theorem c3_counterexample :
    SnapshotFile.cmp c3A c3B = Ordering.eq ∧ c3A.id ≠ c3B.id ∧
      c3A.time = c3B.time ∧ c3A ≠ c3B := by
  refine ⟨rfl, by decide, rfl, by decide⟩

/-- C3 (amended): the snapshot ordering relation compares `time` only — it is
total on `time`, but ties are not broken by id, so snapshots with equal time
compare as equal regardless of their ids. -/
theorem c3_cmp_time_only (s1 s2 : SnapshotFile) :
    (SnapshotFile.cmp s1 s2 = Ordering.eq ↔ s1.time = s2.time) ∧
    (SnapshotFile.cmp s1 s2 = Ordering.lt ↔ s1.time < s2.time) ∧
    (SnapshotFile.cmp s1 s2 = Ordering.gt ↔ s2.time < s1.time) :=
  ⟨SnapshotFile.cmp_eq_iff s1 s2, SnapshotFile.cmp_lt_iff s1 s2,
    SnapshotFile.cmp_gt_iff s1 s2⟩

/-! ### C6: `latest_n` (`repofile/snapshotfile.rs`) -/

/-- The ordering used by `latest_n`: the comparator
`|s1, s2| s2.time.cmp(&s1.time)` orders snapshots newest first. -/
def newerEq (s1 s2 : SnapshotFile) : Prop := s2.time ≤ s1.time

instance : DecidableRel newerEq := fun s1 s2 => by
  unfold newerEq; infer_instance

/-- The corresponding ordering on raw times, newest first. -/
def geInt (a b : Int) : Prop := b ≤ a

instance : DecidableRel geInt := fun a b => by
  unfold geInt; infer_instance

/-- `latest_n_from_iter`: `k_smallest_by(n + 1, |s1, s2| s2.time.cmp(&s1.time))`
selects the `n + 1` smallest elements under the reversed time comparator —
the `n + 1` newest snapshots — in comparator order, which itertools documents
as equivalent to sorting by the comparator and taking the first `n + 1`
elements. -/
def latestNFromIter (n : Nat) (l : List SnapshotFile) : List SnapshotFile :=
  (l.insertionSort newerEq).take (n + 1)

/-- The error message `latest_n` produces (after substituting the `n` context
into the message template). -/
def latestErrMsg (n : Nat) : String :=
  if n = 0 then
    "No snapshots found. Please make sure there are snapshots in the repository."
  else
    "No snapshots found for latest~" ++ toString n ++
      ". Please make sure there are more than " ++ toString n ++
      " snapshots in the repository."

/-- `SnapshotFile::latest_n`: the backend iterator yields the snapshots
passing the predicate; `latest_n_from_iter` keeps the `n + 1` newest; `pop`
takes the last of them; the result is `Some` exactly when `n + 1` snapshots
were found, and otherwise an error is produced. -/
def latest_n (pred : SnapshotFile → Bool) (n : Nat) (l : List SnapshotFile) :
    Except String SnapshotFile :=
  let snapshots := latestNFromIter n (l.filter pred)
  if snapshots.length > n then
    match snapshots.getLast? with
    | some s => Except.ok s
    | none => Except.error (latestErrMsg n)
  else Except.error (latestErrMsg n)

/-- Specification-side list for C6: the times of the snapshots of `l`,
sorted newest first; its `n`-th entry is the time of the `(n+1)`-th newest
snapshot. -/
def timesSortedDesc (l : List SnapshotFile) : List Int :=
  (l.map SnapshotFile.time).insertionSort geInt

theorem getLast?_take_succ {α : Type} (xs : List α) (n : Nat) (h : n < xs.length) :
    (xs.take (n + 1)).getLast? = some (xs.get ⟨n, h⟩) := by
  have hlen : (xs.take (n + 1)).length = n + 1 := by
    rw [List.length_take]; omega
  rw [List.getLast?_eq_getElem?, hlen]
  simp only [Nat.add_sub_cancel]
  rw [List.getElem?_take]
  simp [List.getElem?_eq_getElem h]

theorem timesSortedDesc_eq_map (l : List SnapshotFile) :
    timesSortedDesc l = (l.insertionSort newerEq).map SnapshotFile.time := by
  unfold timesSortedDesc
  exact (List.map_insertionSort newerEq geInt SnapshotFile.time l
    (fun a _ b _ => Iff.rfl)).symm

/-- C6: `latest_n` returns the `(n+1)`-th newest snapshot by time iff more
than `n` snapshots pass the predicate, and errors otherwise; the error
message for `n > 0` mentions `latest~N`. -/
theorem c6_latest_n_spec (pred : SnapshotFile → Bool) (n : Nat) (l : List SnapshotFile) :
    ((∃ s, latest_n pred n l = Except.ok s) ↔ n < (l.filter pred).length) ∧
    (∀ s, latest_n pred n l = Except.ok s →
      (timesSortedDesc (l.filter pred))[n]? = some s.time) ∧
    ((l.filter pred).length ≤ n →
      latest_n pred n l = Except.error (latestErrMsg n)) ∧
    (0 < n → ∃ pre post,
      latestErrMsg n = pre ++ ("latest~" ++ toString n) ++ post) := by
  have hsortlen : ((l.filter pred).insertionSort newerEq).length = (l.filter pred).length :=
    List.length_insertionSort newerEq _
  refine ⟨?_, ?_, ?_, ?_⟩
  · constructor
    · rintro ⟨s, hs⟩
      unfold latest_n latestNFromIter at hs
      by_contra hn
      rw [if_neg] at hs
      · cases hs
      · rw [List.length_take, hsortlen]
        omega
    · intro hn
      unfold latest_n latestNFromIter
      rw [if_pos]
      · rw [getLast?_take_succ _ n (by rw [hsortlen]; exact hn)]
        exact ⟨_, rfl⟩
      · rw [List.length_take, hsortlen]
        omega
  · intro s hs
    unfold latest_n latestNFromIter at hs
    by_cases hn : n < (l.filter pred).length
    · rw [if_pos (by rw [List.length_take, hsortlen]; omega)] at hs
      rw [getLast?_take_succ _ n (by rw [hsortlen]; exact hn)] at hs
      cases hs
      rw [timesSortedDesc_eq_map, List.getElem?_map,
        List.getElem?_eq_getElem (by rw [hsortlen]; exact hn)]
      rfl
    · rw [if_neg (by rw [List.length_take, hsortlen]; omega)] at hs
      cases hs
  · intro hn
    unfold latest_n latestNFromIter
    rw [if_neg]
    rw [List.length_take, hsortlen]
    omega
  · intro hn
    refine ⟨"No snapshots found for ",
      ". Please make sure there are more than " ++ toString n ++
        " snapshots in the repository.", ?_⟩
    unfold latestErrMsg
    rw [if_neg (by omega)]
    rw [show ("No snapshots found for latest~" : String) =
      "No snapshots found for " ++ "latest~" from rfl]
    simp only [String.append_assoc]

/-- Example snapshots for C6, with times 100, 300 and 200. -/
def c6List : List SnapshotFile :=
  [{ id := 1, time := 100, parent := none, tree := 1, paths := [], hostname := "h",
     label := "", tags := [] },
   { id := 2, time := 300, parent := none, tree := 2, paths := [], hostname := "h",
     label := "", tags := [] },
   { id := 3, time := 200, parent := none, tree := 3, paths := [], hostname := "h",
     label := "", tags := [] }]

/-- Witness for C6: concrete application of `c6_latest_n_spec` at `n = 1` on a
three-snapshot store; all hypotheses are discharged on concrete input. -/
theorem c6_latest_n_spec_witness :
    ((∃ s, latest_n (fun _ => true) 1 c6List = Except.ok s) ↔
      1 < (c6List.filter (fun _ => true)).length) ∧
    (∃ pre post, latestErrMsg 1 = pre ++ ("latest~" ++ toString 1) ++ post) ∧
    latest_n (fun _ => true) 4 c6List = Except.error (latestErrMsg 4) :=
  ⟨(c6_latest_n_spec (fun _ => true) 1 c6List).1,
    (c6_latest_n_spec (fun _ => true) 1 c6List).2.2.2 (by decide),
    (c6_latest_n_spec (fun _ => true) 4 c6List).2.2.1 (by decide)⟩

/-! ## Prune planner (`commands/prune.rs`) -/

/-- `LimitOption` from `commands/prune.rs`: a size limit given in bytes, as a
percentage, or unlimited.  The percentage is a `u64`. -/
inductive LimitOption where
  | Size (bytes : Nat)
  | Percentage (p : Nat)
  | Unlimited
deriving DecidableEq

/-- Wrapping `u64` subtraction (Rust release-mode semantics of `a - b`),
assuming `b` is a `u64` value. -/
def sub64 (a b : Nat) : Nat := (a + 2 ^ 64 - b % 2 ^ 64) % 2 ^ 64

/-- Rust `u64` division: division by zero panics, modelled as `none`. -/
def checkedDiv (a b : Nat) : Option Nat :=
  if b = 0 then none else some (a / b)

/-- The `max_unused` byte limit computed at the beginning of
`PrunePlan::decide_repack`:
`(true, _) → 0`, `Unlimited → u64::MAX`, `Size → bytes`,
`Percentage(p) → (p * used) / (100 - p)` where `used` is
`self.stats.size_sum().used`.  The division carries no guard in the source;
a percentage of `100` makes the divisor `0`. -/
def computeMaxUnused (repackUncompressed : Bool) (maxUnused : LimitOption)
    (used : Nat) : Option Nat :=
  match repackUncompressed, maxUnused with
  | true, _ => some 0
  | false, LimitOption.Unlimited => some (2 ^ 64 - 1)
  | false, LimitOption.Size bytes => some bytes
  | false, LimitOption.Percentage p => checkedDiv (p * used) (sub64 100 p)

/-- C2: with `max_unused = Percentage(100)` the divisor `100 - p` in
`decide_repack` is zero and the division is reached unguarded — the
computation fails (a Rust panic) for every used size, contrary to the claim
that the division by zero is guarded. -/
theorem c2_max_unused_percentage_100_divides_by_zero (used : Nat) :
    computeMaxUnused false (LimitOption.Percentage 100) used = none := by
  have h : sub64 100 100 = 0 := by norm_num [sub64]
  simp [computeMaxUnused, checkedDiv, h]

/-! ### C5: `decide_packs` state table -/

/-- `PackToDo` from `commands/prune.rs`. -/
inductive PackToDo where
  | Undecided
  | Keep
  | Repack
  | MarkDelete
  | KeepMarked
  | KeepMarkedAndCorrect
  | Recover
  | Delete
deriving DecidableEq

/-- `RepackReason` from `commands/prune.rs`. -/
inductive RepackReason where
  | PartlyUsed
  | ToCompress
  | SizeMismatch
deriving DecidableEq

/-- Outcome of the per-pack match in `decide_packs`: either `set_todo` is
called with a final `PackToDo`, or the pack is pushed onto
`repack_candidates` with a `RepackReason` (its `to_do` is decided later by
`decide_repack`). -/
inductive PackDecision where
  | SetTodo (todo : PackToDo)
  | Candidate (reason : RepackReason)
deriving DecidableEq

/-- The match on `(pack.delete_mark, pi.used_blobs, pi.unused_blobs)` in
`PrunePlan::decide_packs`.  The flags `too_young`, `keep_uncacheable`,
`to_compress`, `repack_all` and `size_mismatch` are computed right before the
match in the source and are passed in here; `now` is the plan time
`self.time`, `keepDelete` the `keep_delete` duration. -/
def decidePack (deleteMark : Bool) (usedBlobs unusedBlobs : Nat)
    (tooYoung keepUncacheable toCompress repackAll sizeMismatch : Bool)
    (time : Option Int) (now keepDelete : Int) : PackDecision :=
  match deleteMark, usedBlobs, unusedBlobs with
  | false, 0, _ =>
    if tooYoung then PackDecision.SetTodo PackToDo.Keep
    else PackDecision.SetTodo PackToDo.MarkDelete
  | false, _ + 1, 0 =>
    if tooYoung || keepUncacheable then PackDecision.SetTodo PackToDo.Keep
    else if toCompress || repackAll then PackDecision.Candidate RepackReason.ToCompress
    else if sizeMismatch then PackDecision.Candidate RepackReason.SizeMismatch
    else PackDecision.SetTodo PackToDo.Keep
  | false, _ + 1, _ + 1 =>
    if tooYoung || keepUncacheable then PackDecision.SetTodo PackToDo.Keep
    else PackDecision.Candidate RepackReason.PartlyUsed
  | true, 0, _ =>
    match time with
    | some t =>
      if now - t ≥ keepDelete then PackDecision.SetTodo PackToDo.Delete
      else PackDecision.SetTodo PackToDo.KeepMarked
    | none => PackDecision.SetTodo PackToDo.KeepMarkedAndCorrect
  | true, _ + 1, _ => PackDecision.SetTodo PackToDo.Recover

/-- C5: the decision of `decide_packs` for delete-marked packs follows the
state table: at least one used blob forces `Recover`; with zero used blobs a
set time of age at least `keep_delete` gives `Delete`, an unset time gives
`KeepMarkedAndCorrect`, and otherwise the pack stays `KeepMarked`. -/
theorem c5_decide_packs_marked (used unused : Nat)
    (tY kU tC rA sM : Bool) (time : Option Int) (now kd : Int) :
    (0 < used →
      decidePack true used unused tY kU tC rA sM time now kd =
        PackDecision.SetTodo PackToDo.Recover) ∧
    (∀ t, used = 0 → time = some t → now - t ≥ kd →
      decidePack true used unused tY kU tC rA sM time now kd =
        PackDecision.SetTodo PackToDo.Delete) ∧
    (used = 0 → time = none →
      decidePack true used unused tY kU tC rA sM time now kd =
        PackDecision.SetTodo PackToDo.KeepMarkedAndCorrect) ∧
    (∀ t, used = 0 → time = some t → now - t < kd →
      decidePack true used unused tY kU tC rA sM time now kd =
        PackDecision.SetTodo PackToDo.KeepMarked) := by
  refine ⟨?_, ?_, ?_, ?_⟩
  · intro hu
    obtain ⟨u, rfl⟩ : ∃ u, used = u + 1 := ⟨used - 1, by omega⟩
    rfl
  · rintro t rfl rfl h
    simp only [decidePack]
    rw [if_pos h]
  · rintro rfl rfl
    rfl
  · rintro t rfl rfl h
    simp only [decidePack]
    rw [if_neg (by omega)]

/-- Witness for C5: all four rows of the state table at concrete inputs. -/
theorem c5_decide_packs_marked_witness :
    decidePack true 1 0 false false false false false none 0 0 =
      PackDecision.SetTodo PackToDo.Recover ∧
    decidePack true 0 2 false false false false false (some 0) 100 10 =
      PackDecision.SetTodo PackToDo.Delete ∧
    decidePack true 0 2 false false false false false none 0 0 =
      PackDecision.SetTodo PackToDo.KeepMarkedAndCorrect ∧
    decidePack true 0 2 false false false false false (some 0) 5 10 =
      PackDecision.SetTodo PackToDo.KeepMarked :=
  ⟨(c5_decide_packs_marked 1 0 false false false false false none 0 0).1 (by decide),
    (c5_decide_packs_marked 0 2 false false false false false (some 0) 100 10).2.1
      0 rfl rfl (by decide),
    (c5_decide_packs_marked 0 2 false false false false false none 0 0).2.2.1 rfl rfl,
    (c5_decide_packs_marked 0 2 false false false false false (some 0) 5 10).2.2.2
      0 rfl rfl (by decide)⟩

/-! ## Index files and the indexer (`index/indexer.rs`) -/

/-- `BlobType` from the blob model: packs are homogeneous in blob type. -/
inductive BlobType where
  | Tree
  | Data
deriving DecidableEq

/-- An index blob descriptor; the id and the (compressed) length are the
fields the verified claims use. -/
structure IndexBlob where
  id : Nat
  length : Nat
deriving DecidableEq

/-- `IndexPack`.  Modelled from the spec: the struct itself lives in
`repofile/indexfile.rs`, which is not among the analysed source files; §3 of
the spec defines it as `{PackId, blob_type, time?, blobs: [IndexBlob]}`. -/
structure IndexPack where
  id : Nat
  blobType : BlobType
  time : Option Int
  blobs : List IndexBlob
deriving DecidableEq

/-- `IndexFile`.  Modelled from the spec: `repofile/indexfile.rs` is not
among the analysed source files; §3 of the spec defines an `IndexFile` as two
ordered lists of `IndexPack`: `packs` (live) and `packs_to_delete`
(tombstoned). -/
structure IndexFile where
  packs : List IndexPack
  packs_to_delete : List IndexPack
deriving DecidableEq

/-- `IndexFile::default()`: both lists empty. -/
def IndexFile.empty : IndexFile := ⟨[], []⟩

/-- `IndexFile::add`.  Modelled from the spec: §4.1 — `add(pack)` /
`add_remove(pack)` append the pack to `packs` or to `packs_to_delete`
according to the delete flag. -/
def IndexFile.add (f : IndexFile) (pack : IndexPack) (delete : Bool) : IndexFile :=
  if delete then { f with packs_to_delete := f.packs_to_delete ++ [pack] }
  else { f with packs := f.packs ++ [pack] }

/-- Insertion into the `BTreeSet<BlobId>` membership set, modelled as a
duplicate-free list. -/
def insertId (s : List Nat) (id : Nat) : List Nat :=
  if id ∈ s then s else id :: s

/-- The `Indexer` from `index/indexer.rs`.  The backend `be` is modelled by
the list of index files written so far (`save_file` appends to it); times are
naturals (seconds). -/
structure Indexer where
  written : List IndexFile
  file : IndexFile
  count : Nat
  created : Nat
  indexed : Option (List Nat)
deriving DecidableEq

/-- `constants::MAX_COUNT`: flush after 50 000 blobs. -/
def MAX_COUNT : Nat := 50000

/-- `constants::MAX_AGE`: flush after 300 seconds. -/
def MAX_AGE : Nat := 300

/-- `Indexer::new`: empty index file, zero count, fresh timer, an (empty)
membership set. -/
def Indexer.new (now : Nat) : Indexer :=
  ⟨[], IndexFile.empty, 0, now, some []⟩

/-- `Indexer::new_unindexed`: like `new` but without a membership set. -/
def Indexer.new_unindexed (now : Nat) : Indexer :=
  ⟨[], IndexFile.empty, 0, now, none⟩

/-- `Indexer::reset`: clear the file and the count, restart the timer. -/
def Indexer.reset (idx : Indexer) (now : Nat) : Indexer :=
  { idx with file := IndexFile.empty, count := 0, created := now }

/-- `Indexer::save`: write the index file to the backend if it holds at
least one pack. -/
def Indexer.save (idx : Indexer) : Indexer :=
  if idx.file.packs.length + idx.file.packs_to_delete.length > 0 then
    { idx with written := idx.written ++ [idx.file] }
  else idx

/-- `Indexer::has`: membership in the accumulated set; always `false`
without a set. -/
def Indexer.has (idx : Indexer) (id : Nat) : Bool :=
  match idx.indexed with
  | some indexed => decide (id ∈ indexed)
  | none => false

/-- The update of the membership set in `add_with`: insert every blob id of
the pack. -/
def addBlobIds (pack : IndexPack) (ind : List Nat) : List Nat :=
  pack.blobs.foldl (fun acc b => insertId acc b.id) ind

/-- `Indexer::add_with`: add the pack's blob count, extend the membership
set (when present), append the pack to the index file, then flush — save and
reset — when the count reached `MAX_COUNT` or `MAX_AGE` seconds have elapsed
since the last flush.  `elapsed` saturates at zero when the clock went
backwards, matching `Nat` subtraction. -/
def Indexer.add_with (idx : Indexer) (pack : IndexPack) (delete : Bool) (now : Nat) :
    Indexer :=
  let count := idx.count + pack.blobs.length
  let indexed := idx.indexed.map (addBlobIds pack)
  let idx' : Indexer :=
    { idx with count := count, indexed := indexed, file := idx.file.add pack delete }
  let elapsed := now - idx'.created
  if count ≥ MAX_COUNT ∨ elapsed ≥ MAX_AGE then (idx'.save).reset now else idx'

/-- `Indexer::add`: `add_with(pack, false)`. -/
def Indexer.add (idx : Indexer) (pack : IndexPack) (now : Nat) : Indexer :=
  idx.add_with pack false now

/-- `Indexer::add_remove`: `add_with(pack, true)`. -/
def Indexer.add_remove (idx : Indexer) (pack : IndexPack) (now : Nat) : Indexer :=
  idx.add_with pack true now

/-- A sequence of `add_with` calls: each operation carries the pack, the
delete flag and the call time. -/
def runAdds (idx : Indexer) (ops : List (IndexPack × Bool × Nat)) : Indexer :=
  ops.foldl (fun i op => i.add_with op.1 op.2.1 op.2.2) idx

theorem mem_insertId {s : List Nat} {a b : Nat} :
    a ∈ insertId s b ↔ a = b ∨ a ∈ s := by
  unfold insertId
  split
  · constructor
    · exact Or.inr
    · rintro (rfl | h)
      · assumption
      · assumption
  · exact List.mem_cons

theorem mem_addBlobIds {pack : IndexPack} {ind : List Nat} {id : Nat} :
    id ∈ addBlobIds pack ind ↔ id ∈ ind ∨ ∃ b ∈ pack.blobs, b.id = id := by
  unfold addBlobIds
  suffices h : ∀ (bs : List IndexBlob) (s : List Nat),
      id ∈ bs.foldl (fun acc b => insertId acc b.id) s ↔
        id ∈ s ∨ ∃ b ∈ bs, b.id = id by
    exact h pack.blobs ind
  intro bs
  induction bs with
  | nil => simp
  | cons b bs ih =>
    intro s
    rw [List.foldl_cons, ih, mem_insertId]
    constructor
    · rintro ((rfl | h) | ⟨c, hc, rfl⟩)
      · exact Or.inr ⟨b, List.mem_cons_self b bs, rfl⟩
      · exact Or.inl h
      · exact Or.inr ⟨c, List.mem_cons_of_mem b hc, rfl⟩
    · rintro (h | ⟨c, hc, rfl⟩)
      · exact Or.inl (Or.inr h)
      · rcases List.mem_cons.mp hc with rfl | hc
        · exact Or.inl (Or.inl rfl)
        · exact Or.inr ⟨c, hc, rfl⟩

theorem add_with_indexed (idx : Indexer) (pack : IndexPack) (delete : Bool) (now : Nat) :
    (idx.add_with pack delete now).indexed = idx.indexed.map (addBlobIds pack) := by
  unfold Indexer.add_with Indexer.save Indexer.reset
  dsimp only
  split
  · split <;> rfl
  · rfl

theorem add_with_has (idx : Indexer) (pack : IndexPack) (delete : Bool) (now : Nat)
    (id : Nat) :
    (idx.add_with pack delete now).has id = true ↔
      idx.has id = true ∨ (idx.indexed.isSome = true ∧ ∃ b ∈ pack.blobs, b.id = id) := by
  have hind := add_with_indexed idx pack delete now
  unfold Indexer.has
  rw [hind]
  cases h : idx.indexed with
  | none => simp
  | some s =>
    simp [mem_addBlobIds]
    try tauto

theorem add_with_isSome (idx : Indexer) (pack : IndexPack) (delete : Bool) (now : Nat) :
    (idx.add_with pack delete now).indexed.isSome = idx.indexed.isSome := by
  rw [add_with_indexed]
  cases idx.indexed <;> rfl

theorem runAdds_has (ops : List (IndexPack × Bool × Nat)) :
    ∀ idx : Indexer, idx.indexed.isSome = true →
      ∀ id : Nat,
        (idx.has id = true ∨ ∃ op ∈ ops, ∃ b ∈ op.1.blobs, b.id = id) →
        (runAdds idx ops).has id = true := by
  induction ops with
  | nil =>
    intro idx _ id h
    rcases h with h | ⟨op, hop, -⟩
    · exact h
    · cases hop
  | cons op ops ih =>
    intro idx hsome id h
    unfold runAdds
    rw [List.foldl_cons]
    refine ih _ (by rw [add_with_isSome]; exact hsome) id ?_
    rcases h with h | ⟨op', hop', hb⟩
    · exact Or.inl ((add_with_has idx op.1 op.2.1 op.2.2 id).mpr (Or.inl h))
    · rcases List.mem_cons.mp hop' with rfl | hop'
      · exact Or.inl ((add_with_has idx op'.1 op'.2.1 op'.2.2 id).mpr
          (Or.inr ⟨hsome, hb⟩))
      · exact Or.inr ⟨op', hop', hb⟩

/-- C7: the indexer flushes exactly when the blob count reached `MAX_COUNT =
50 000` or `MAX_AGE = 300` seconds elapsed since the last flush; a flush
writes the current index file (with the pack appended) to the backend,
clears the file and the count and restarts the timer; in either case the
membership set gains the pack's blobs and remains cumulative, so `has`
returns `true` for every blob id previously added to an indexer created with
`Indexer::new`. -/
theorem c7_indexer_flush_spec (idx : Indexer) (pack : IndexPack) (delete : Bool)
    (now : Nat) (t0 : Nat) (ops : List (IndexPack × Bool × Nat)) (id : Nat) :
    (idx.count + pack.blobs.length ≥ MAX_COUNT ∨ now - idx.created ≥ MAX_AGE →
      idx.add_with pack delete now =
        { written := idx.written ++ [idx.file.add pack delete],
          file := IndexFile.empty, count := 0, created := now,
          indexed := idx.indexed.map (addBlobIds pack) }) ∧
    (¬(idx.count + pack.blobs.length ≥ MAX_COUNT ∨ now - idx.created ≥ MAX_AGE) →
      idx.add_with pack delete now =
        { written := idx.written, file := idx.file.add pack delete,
          count := idx.count + pack.blobs.length, created := idx.created,
          indexed := idx.indexed.map (addBlobIds pack) }) ∧
    ((∃ op ∈ ops, ∃ b ∈ op.1.blobs, b.id = id) →
      (runAdds (Indexer.new t0) ops).has id = true) := by
  refine ⟨?_, ?_, ?_⟩
  · intro h
    unfold Indexer.add_with
    dsimp only
    rw [if_pos h]
    unfold Indexer.save Indexer.reset
    dsimp only
    rw [if_pos]
    cases delete <;> simp [IndexFile.add]
  · intro h
    unfold Indexer.add_with
    dsimp only
    rw [if_neg h]
  · intro h
    exact runAdds_has ops (Indexer.new t0) rfl id (Or.inr h)

/-- Concrete pack for the C7 witness: one blob with id 5. -/
def c7Pack : IndexPack := ⟨1, BlobType.Data, none, [⟨5, 10⟩]⟩

/-- Witness for C7: a concrete flush (age 400 s ≥ 300 s) and a concrete
membership query after an add. -/
theorem c7_indexer_flush_spec_witness :
    Indexer.add_with (Indexer.new 0) c7Pack false 400 =
      { written := (Indexer.new 0).written ++ [(Indexer.new 0).file.add c7Pack false],
        file := IndexFile.empty, count := 0, created := 400,
        indexed := (Indexer.new 0).indexed.map (addBlobIds c7Pack) } ∧
    (runAdds (Indexer.new 0) [(c7Pack, false, 10)]).has 5 = true :=
  ⟨(c7_indexer_flush_spec (Indexer.new 0) c7Pack false 400 0 [] 0).1
      (Or.inr (by decide)),
    (c7_indexer_flush_spec (Indexer.new 0) c7Pack false 400 0
        [(c7Pack, false, 10)] 5).2.2 (by decide)⟩

theorem runAdds_indexed_none (ops : List (IndexPack × Bool × Nat)) :
    ∀ idx : Indexer, idx.indexed = none → (runAdds idx ops).indexed = none := by
  induction ops with
  | nil => intro idx h; exact h
  | cons op ops ih =>
    intro idx h
    unfold runAdds
    rw [List.foldl_cons]
    exact ih _ (by rw [add_with_indexed, h]; rfl)

/-- C9: an indexer created with `new_unindexed` has no membership set, so
`has` returns `false` for every blob id after every sequence of `add`,
`add_remove` or `add_with` calls. -/
theorem c9_new_unindexed_has_false (t0 : Nat) (ops : List (IndexPack × Bool × Nat))
    (id : Nat) :
    (runAdds (Indexer.new_unindexed t0) ops).has id = false := by
  have h := runAdds_indexed_none ops (Indexer.new_unindexed t0) rfl
  simp [Indexer.has, h]

/-! ## Restore executor (`commands/restore.rs`) -/

/-- `constants::LIMIT_PACK_READ`: 40 MiB, the cap on one coalesced pack
read. -/
def LIMIT_PACK_READ : Nat := 40 * 1024 * 1024

/-- One element of the `blobs` vector built in `restore_contents` before
coalescing: `(pack, bl.offset, bl.length, from_file, name_dests)`.  The
`fromFile` component is `some (file_idx, file_start, data_length)` when a
matching existing destination file serves as the source of this blob; the
`dests` list holds the `((offset, length), file_idx, file_start)` targets
still to be written. -/
structure BlobRead where
  pack : Nat
  offset : Nat
  length : Nat
  fromFile : Option (Nat × Nat × Nat)
  dests : List ((Nat × Nat) × Nat × Nat)
deriving DecidableEq

/-- The merge condition of the `coalesce` closure in `restore_contents`:
same pack, the accumulated entry does not read from a present file, the
ranges are contiguous, and the combined length stays under the limit.  Note
only `x.3.is_none()` — the from-file flag of the accumulated entry — is
tested; `y`'s flag is not. -/
def mergeCond (x y : BlobRead) : Bool :=
  x.pack == y.pack && x.fromFile.isNone && y.offset == x.offset + x.length &&
    decide (x.length + y.length < LIMIT_PACK_READ)

/-- The merged entry: `x.2 += y.2; x.4.append(&mut y.4); Ok(x)`. -/
def mergeReads (x y : BlobRead) : BlobRead :=
  { x with length := x.length + y.length, dests := x.dests ++ y.dests }

/-- `Itertools::coalesce` with the merge closure of `restore_contents`: keep
an accumulated element; merge the next element into it while the closure
returns `Ok`, otherwise emit the accumulated element and continue from the
next one. -/
def coalesceGo (acc : BlobRead) : List BlobRead → List BlobRead
  | [] => [acc]
  | y :: ys =>
    if mergeCond acc y then coalesceGo (mergeReads acc y) ys
    else acc :: coalesceGo y ys

/-- The `.coalesce(..)` call in `restore_contents` applied to the list of
blob reads. -/
def restoreCoalesce : List BlobRead → List BlobRead
  | [] => []
  | x :: xs => coalesceGo x xs

/-- Spec-side merge condition for C8 (the claim's words): the two entries
share the pack id, the second range starts where the first ends, the
combined length is below the 40 MiB limit, and neither entry is sourced from
an existing file. -/
def specMergeCond (x y : BlobRead) : Prop :=
  x.pack = y.pack ∧ y.offset = x.offset + x.length ∧
    x.length + y.length < LIMIT_PACK_READ ∧ x.fromFile = none ∧ y.fromFile = none

/-- First entry of the C8 counterexample: a pack read. -/
def c8A : BlobRead := ⟨3, 0, 100, none, [((0, 100), 0, 0)]⟩

/-- Second entry of the C8 counterexample: contiguous with `c8A` but sourced
from an existing destination file. -/
def c8B : BlobRead := ⟨3, 100, 100, some (7, 0, 100), []⟩

/-- C8 (counterexample): `restore_contents` merges `c8A` and `c8B` although
the second entry is sourced from an existing file, so the claimed "neither
entry is sourced from an existing file" condition does not characterize the
merge: only the first (accumulated) entry's source is checked. -/
theorem c8_counterexample :
    restoreCoalesce [c8A, c8B] = [mergeReads c8A c8B] ∧
      ¬ specMergeCond c8A c8B := by
  refine ⟨rfl, ?_⟩
  intro h
  exact absurd h.2.2.2.2 (by decide)

theorem mergeReads_fields (x y : BlobRead) :
    (mergeReads x y).pack = x.pack ∧ (mergeReads x y).offset = x.offset ∧
      (mergeReads x y).fromFile = x.fromFile ∧
      x.length ≤ (mergeReads x y).length :=
  ⟨rfl, rfl, rfl, Nat.le_add_right _ _⟩

theorem mergeCond_false_trans {x y z : BlobRead} (h : mergeCond x y = false)
    (hp : z.pack = y.pack) (ho : z.offset = y.offset) (_hf : z.fromFile = y.fromFile)
    (hl : y.length ≤ z.length) : mergeCond x z = false := by
  by_contra hz
  rw [Bool.not_eq_false] at hz
  unfold mergeCond at hz h
  rw [Bool.and_eq_true, Bool.and_eq_true, Bool.and_eq_true] at hz
  obtain ⟨⟨⟨h1, h2⟩, h3⟩, h4⟩ := hz
  rw [Bool.eq_false_iff] at h
  apply h
  rw [Bool.and_eq_true, Bool.and_eq_true, Bool.and_eq_true]
  refine ⟨⟨⟨?_, h2⟩, ?_⟩, ?_⟩
  · rw [beq_iff_eq] at h1 ⊢
    omega
  · rw [beq_iff_eq] at h3 ⊢
    omega
  · rw [decide_eq_true_eq] at h4 ⊢
    omega

theorem coalesceGo_head (l : List BlobRead) :
    ∀ acc : BlobRead, ∃ z rest, coalesceGo acc l = z :: rest ∧
      z.pack = acc.pack ∧ z.offset = acc.offset ∧ z.fromFile = acc.fromFile ∧
      acc.length ≤ z.length := by
  induction l with
  | nil => exact fun acc => ⟨acc, [], rfl, rfl, rfl, rfl, Nat.le_refl _⟩
  | cons y ys ih =>
    intro acc
    unfold coalesceGo
    split
    · obtain ⟨z, rest, hgo, hp, ho, hf, hl⟩ := ih (mergeReads acc y)
      exact ⟨z, rest, hgo, hp, ho, hf, Nat.le_trans (Nat.le_add_right _ _) hl⟩
    · exact ⟨acc, coalesceGo y ys, rfl, rfl, rfl, rfl, Nat.le_refl _⟩

theorem coalesceGo_chain (l : List BlobRead) :
    ∀ acc : BlobRead,
      List.Chain' (fun a b => mergeCond a b = false) (coalesceGo acc l) := by
  induction l with
  | nil => exact fun acc => List.chain'_singleton acc
  | cons y ys ih =>
    intro acc
    unfold coalesceGo
    split
    · exact ih (mergeReads acc y)
    · rename_i hcond
      rw [List.chain'_cons']
      refine ⟨?_, ih y⟩
      intro z hz
      obtain ⟨z', rest, hgo, hp, ho, hf, hl⟩ := coalesceGo_head ys y
      rw [hgo] at hz
      simp only [List.head?_cons, Option.mem_def, Option.some.injEq] at hz
      subst hz
      exact mergeCond_false_trans (Bool.eq_false_iff.mpr hcond) hp ho hf hl

/-- C8 (amended): within one pack two adjacent blob-read entries are merged
exactly when they share the pack id, the second range starts where the first
ends, the combined length stays under the 40 MiB limit, and the first
(accumulated) entry is not sourced from an existing file — the second
entry's from-file source is not checked (and is dropped on merge).
Furthermore the coalescing is maximal: no two consecutive entries of the
output still satisfy the merge condition. -/
theorem c8_coalesce_spec (x y : BlobRead) (l : List BlobRead) :
    (restoreCoalesce [x, y] =
      if mergeCond x y then [mergeReads x y] else [x, y]) ∧
    List.Chain' (fun a b => mergeCond a b = false) (restoreCoalesce l) := by
  constructor
  · unfold restoreCoalesce coalesceGo
    split <;> rfl
  · cases l with
    | nil => exact List.chain'_nil
    | cons a as => exact coalesceGo_chain as a

/-! ## `PackInfo::from_pack` (`commands/prune.rs`) -/

/-- Sum of the lengths of a list of index blobs. -/
def sumLen (bs : List IndexBlob) : Nat := (bs.map IndexBlob.length).sum

/-- `IndexPack::pack_size`.  Modelled from the spec: §3 — pack size is the
sum of the blob lengths plus header and fixed overhead; the constant header
overhead is omitted here since no verified claim depends on the size
field. -/
def IndexPack.packSize (p : IndexPack) : Nat := sumLen p.blobs

/-- `PrunePack` from `commands/prune.rs`. -/
structure PrunePack where
  id : Nat
  blobType : BlobType
  size : Nat
  delete_mark : Bool
  to_do : PackToDo
  time : Option Int
  blobs : List IndexBlob
deriving DecidableEq

/-- `PrunePack::from_index_pack`. -/
def PrunePack.from_index_pack (p : IndexPack) (delete_mark : Bool) : PrunePack :=
  ⟨p.id, p.blobType, p.packSize, delete_mark, PackToDo.Undecided, p.time, p.blobs⟩

/-- `PrunePack::from_index_pack_unmarked`. -/
def PrunePack.from_index_pack_unmarked (p : IndexPack) : PrunePack :=
  PrunePack.from_index_pack p false

/-- `PrunePack::from_index_pack_marked`. -/
def PrunePack.from_index_pack_marked (p : IndexPack) : PrunePack :=
  PrunePack.from_index_pack p true

/-- The used-ids counter map `BTreeMap<BlobId, u8>` of the prune planner,
modelled as a function from blob ids to optional counters (`get_mut`
returning `None` when the id is absent). -/
def UsedMap : Type := Nat → Option Nat

/-- Overwrite the counter of `id` (the map entry exists whenever this is
called, so no insertion case is needed). -/
def UsedMap.update (m : UsedMap) (id : Nat) (v : Nat) : UsedMap :=
  fun x => if x = id then some v else m x

/-- `PackInfo` from `commands/prune.rs`. -/
structure PackInfo where
  blobType : BlobType
  usedBlobs : Nat
  unusedBlobs : Nat
  usedSize : Nat
  unusedSize : Nat
deriving DecidableEq

/-- Count blob `b` as used.  The blob counters of `PackInfo` are `u16` in
the source and the sizes `u32`; the increments wrap at `2 ^ 16 = 65536` and
`2 ^ 32 = 4294967296` respectively (release-mode Rust semantics; debug mode
panics instead). -/
def addUsed (pi : PackInfo) (b : IndexBlob) : PackInfo :=
  { pi with usedSize := (pi.usedSize + b.length) % 4294967296,
            usedBlobs := (pi.usedBlobs + 1) % 65536 }

/-- Count blob `b` as unused, with the same wrapping `u16`/`u32`
arithmetic as `addUsed`. -/
def addUnused (pi : PackInfo) (b : IndexBlob) : PackInfo :=
  { pi with unusedSize := (pi.unusedSize + b.length) % 4294967296,
            unusedBlobs := (pi.unusedBlobs + 1) % 65536 }

/-- The `position` closure of `PackInfo::from_pack`: walk the blobs,
decrementing counters; a blob absent from the map or with counter zero is
counted unused; a decrement landing on zero makes the blob used and stops the
search.  Returns the updated map, the accumulated `PackInfo`, and — when a
needed blob was found — the already processed prefix together with the
remaining blobs. -/
def scanFirstNeeded (m : UsedMap) (pi : PackInfo) :
    List IndexBlob → UsedMap × PackInfo × Option (List IndexBlob × List IndexBlob)
  | [] => (m, pi, none)
  | b :: bs =>
    match m b.id with
    | some (c + 1) =>
      if c = 0 then
        (m.update b.id 0, addUsed pi b, some ([], bs))
      else
        let res := scanFirstNeeded (m.update b.id c) (addUnused pi b) bs
        (res.1, res.2.1, res.2.2.map (fun pr => (b :: pr.1, pr.2)))
    | _ =>
      let res := scanFirstNeeded m (addUnused pi b) bs
      (res.1, res.2.1, res.2.2.map (fun pr => (b :: pr.1, pr.2)))

/-- The first follow-up loop of `PackInfo::from_pack`: rewalk the blobs
before the first needed one and reclassify those whose counter is still
positive as used (setting their counter to zero).  The `-=` on the unused
counters is wrapping `u16`/`u32` subtraction, the `+=` wrapping addition
(release-mode Rust semantics). -/
def reprocessPrefix (m : UsedMap) (pi : PackInfo) :
    List IndexBlob → UsedMap × PackInfo
  | [] => (m, pi)
  | b :: bs =>
    match m b.id with
    | some (_ + 1) =>
      reprocessPrefix (m.update b.id 0)
        { pi with
            unusedSize := (pi.unusedSize + 4294967296 - b.length % 4294967296) % 4294967296,
            unusedBlobs := (pi.unusedBlobs + 65536 - 1) % 65536,
            usedSize := (pi.usedSize + b.length) % 4294967296,
            usedBlobs := (pi.usedBlobs + 1) % 65536 } bs
    | _ => reprocessPrefix m pi bs

/-- The second follow-up loop of `PackInfo::from_pack`: process the blobs
after the first needed one; blobs with a positive counter are used (counter
zeroed), the rest unused. -/
def scanRest (m : UsedMap) (pi : PackInfo) : List IndexBlob → UsedMap × PackInfo
  | [] => (m, pi)
  | b :: bs =>
    match m b.id with
    | some (_ + 1) => scanRest (m.update b.id 0) (addUsed pi b) bs
    | _ => scanRest m (addUnused pi b) bs

/-- `PackInfo::from_pack`: run the position search; if no needed blob was
found the pack is wholly unused, otherwise reprocess the prefix and continue
with the rest.  Returns the `PackInfo` and the updated map (the Rust version
mutates the map in place). -/
def PackInfo.from_pack (pack : PrunePack) (m : UsedMap) : PackInfo × UsedMap :=
  let pi0 : PackInfo := ⟨pack.blobType, 0, 0, 0, 0⟩
  match scanFirstNeeded m pi0 pack.blobs with
  | (m1, pi1, none) => (pi1, m1)
  | (m1, pi1, some (pre, rest)) =>
    let res2 := reprocessPrefix m1 pi1 pre
    let res3 := scanRest res2.1 res2.2 rest
    (res3.2, res3.1)

theorem sumLen_cons (b : IndexBlob) (bs : List IndexBlob) :
    sumLen (b :: bs) = b.length + sumLen bs := by
  simp [sumLen]

theorem sumLen_append (xs ys : List IndexBlob) :
    sumLen (xs ++ ys) = sumLen xs + sumLen ys := by
  simp [sumLen]

theorem scanFirstNeeded_none_spec :
    ∀ (bs : List IndexBlob) (m : UsedMap) (pi : PackInfo),
      pi.unusedBlobs < 65536 → pi.unusedSize < 4294967296 →
      (scanFirstNeeded m pi bs).2.2 = none →
        (scanFirstNeeded m pi bs).2.1.usedBlobs = pi.usedBlobs ∧
        (scanFirstNeeded m pi bs).2.1.usedSize = pi.usedSize ∧
        (scanFirstNeeded m pi bs).2.1.unusedBlobs = (pi.unusedBlobs + bs.length) % 65536 ∧
        (scanFirstNeeded m pi bs).2.1.unusedSize =
          (pi.unusedSize + sumLen bs) % 4294967296 := by
  intro bs
  induction bs with
  | nil =>
    intro m pi hwb hws _
    refine ⟨rfl, rfl, ?_, ?_⟩
    · simp only [scanFirstNeeded, List.length_nil]
      omega
    · simp only [scanFirstNeeded, sumLen, List.map_nil, List.sum_nil]
      omega
  | cons b bs ih =>
    intro m pi hwb hws hnone
    unfold scanFirstNeeded at hnone ⊢
    rcases hm : m b.id with - | c
    · rw [hm] at hnone
      dsimp only at hnone ⊢
      rw [Option.map_eq_none'] at hnone
      obtain ⟨h1, h2, h3, h4⟩ := ih m (addUnused pi b)
        (by simp only [addUnused]; omega) (by simp only [addUnused]; omega) hnone
      refine ⟨h1, h2, ?_, ?_⟩
      · rw [h3, addUnused]
        dsimp only
        rw [List.length_cons]
        omega
      · rw [h4, addUnused, sumLen_cons]
        dsimp only
        omega
    · rw [hm] at hnone
      rcases c with - | k
      · dsimp only at hnone ⊢
        rw [Option.map_eq_none'] at hnone
        obtain ⟨h1, h2, h3, h4⟩ := ih m (addUnused pi b)
          (by simp only [addUnused]; omega) (by simp only [addUnused]; omega) hnone
        refine ⟨h1, h2, ?_, ?_⟩
        · rw [h3, addUnused]
          dsimp only
          rw [List.length_cons]
          omega
        · rw [h4, addUnused, sumLen_cons]
          dsimp only
          omega
      · dsimp only at hnone ⊢
        by_cases hk : k = 0
        · rw [if_pos hk] at hnone
          cases hnone
        · rw [if_neg hk] at hnone ⊢
          dsimp only at hnone ⊢
          rw [Option.map_eq_none'] at hnone
          obtain ⟨h1, h2, h3, h4⟩ := ih (UsedMap.update m b.id k) (addUnused pi b)
            (by simp only [addUnused]; omega) (by simp only [addUnused]; omega) hnone
          refine ⟨h1, h2, ?_, ?_⟩
          · rw [h3, addUnused]
            dsimp only
            rw [List.length_cons]
            omega
          · rw [h4, addUnused, sumLen_cons]
            dsimp only
            omega

theorem scanFirstNeeded_some_spec :
    ∀ (bs : List IndexBlob) (m : UsedMap) (pi : PackInfo) (pre rest : List IndexBlob),
      pi.unusedBlobs < 65536 → pi.unusedSize < 4294967296 →
      (scanFirstNeeded m pi bs).2.2 = some (pre, rest) →
        ∃ found : IndexBlob, bs = pre ++ found :: rest ∧
          (scanFirstNeeded m pi bs).2.1.usedBlobs = (pi.usedBlobs + 1) % 65536 ∧
          (scanFirstNeeded m pi bs).2.1.usedSize =
            (pi.usedSize + found.length) % 4294967296 ∧
          (scanFirstNeeded m pi bs).2.1.unusedBlobs =
            (pi.unusedBlobs + pre.length) % 65536 ∧
          (scanFirstNeeded m pi bs).2.1.unusedSize =
            (pi.unusedSize + sumLen pre) % 4294967296 := by
  intro bs
  induction bs with
  | nil =>
    intro m pi pre rest _ _ h
    simp [scanFirstNeeded] at h
  | cons b bs ih =>
    intro m pi pre rest hwb hws hsome
    unfold scanFirstNeeded at hsome ⊢
    rcases hm : m b.id with - | c
    · rw [hm] at hsome
      dsimp only at hsome ⊢
      rw [Option.map_eq_some'] at hsome
      obtain ⟨pr, hpr, heq⟩ := hsome
      rw [Prod.ext_iff] at heq
      obtain ⟨hpre, hrest⟩ := heq
      dsimp only at hpre hrest
      subst hpre
      subst hrest
      obtain ⟨found, hbs, h1, h2, h3, h4⟩ := ih m (addUnused pi b) pr.1 pr.2
        (by simp only [addUnused]; omega) (by simp only [addUnused]; omega) hpr
      refine ⟨found, by rw [hbs]; rfl, ?_, ?_, ?_, ?_⟩
      · rw [h1, addUnused]
      · rw [h2, addUnused]
      · rw [h3, addUnused]
        dsimp only
        rw [List.length_cons]
        omega
      · rw [h4, addUnused, sumLen_cons]
        dsimp only
        omega
    · rw [hm] at hsome
      rcases c with - | k
      · dsimp only at hsome ⊢
        rw [Option.map_eq_some'] at hsome
        obtain ⟨pr, hpr, heq⟩ := hsome
        rw [Prod.ext_iff] at heq
        obtain ⟨hpre, hrest⟩ := heq
        dsimp only at hpre hrest
        subst hpre
        subst hrest
        obtain ⟨found, hbs, h1, h2, h3, h4⟩ := ih m (addUnused pi b) pr.1 pr.2
          (by simp only [addUnused]; omega) (by simp only [addUnused]; omega) hpr
        refine ⟨found, by rw [hbs]; rfl, ?_, ?_, ?_, ?_⟩
        · rw [h1, addUnused]
        · rw [h2, addUnused]
        · rw [h3, addUnused]
          dsimp only
          rw [List.length_cons]
          omega
        · rw [h4, addUnused, sumLen_cons]
          dsimp only
          omega
      · dsimp only at hsome ⊢
        by_cases hk : k = 0
        · rw [if_pos hk] at hsome ⊢
          dsimp only at hsome ⊢
          rw [Option.some.injEq, Prod.ext_iff] at hsome
          obtain ⟨hpre, hrest⟩ := hsome
          dsimp only at hpre hrest
          subst hpre
          subst hrest
          refine ⟨b, rfl, ?_, ?_, ?_, ?_⟩
          · simp [addUsed]
          · simp [addUsed]
          · simp only [addUsed, List.length_nil]
            omega
          · simp only [addUsed, sumLen, List.map_nil, List.sum_nil]
            omega
        · rw [if_neg hk] at hsome ⊢
          dsimp only at hsome ⊢
          rw [Option.map_eq_some'] at hsome
          obtain ⟨pr, hpr, heq⟩ := hsome
          rw [Prod.ext_iff] at heq
          obtain ⟨hpre, hrest⟩ := heq
          dsimp only at hpre hrest
          subst hpre
          subst hrest
          obtain ⟨found, hbs, h1, h2, h3, h4⟩ :=
            ih (UsedMap.update m b.id k) (addUnused pi b) pr.1 pr.2
              (by simp only [addUnused]; omega) (by simp only [addUnused]; omega) hpr
          refine ⟨found, by rw [hbs]; rfl, ?_, ?_, ?_, ?_⟩
          · rw [h1, addUnused]
          · rw [h2, addUnused]
          · rw [h3, addUnused]
            dsimp only
            rw [List.length_cons]
            omega
          · rw [h4, addUnused, sumLen_cons]
            dsimp only
            omega

theorem reprocessPrefix_mod :
    ∀ (bs : List IndexBlob) (m : UsedMap) (pi : PackInfo),
      ((reprocessPrefix m pi bs).2.usedBlobs +
          (reprocessPrefix m pi bs).2.unusedBlobs) % 65536 =
        (pi.usedBlobs + pi.unusedBlobs) % 65536 ∧
      ((reprocessPrefix m pi bs).2.usedSize +
          (reprocessPrefix m pi bs).2.unusedSize) % 4294967296 =
        (pi.usedSize + pi.unusedSize) % 4294967296 := by
  intro bs
  induction bs with
  | nil => exact fun m pi => ⟨rfl, rfl⟩
  | cons b bs ih =>
    intro m pi
    unfold reprocessPrefix
    rcases hm : m b.id with - | c
    · exact ih m pi
    · rcases c with - | k
      · exact ih m pi
      · obtain ⟨h1, h2⟩ := ih (UsedMap.update m b.id 0)
          { pi with
              unusedSize :=
                (pi.unusedSize + 4294967296 - b.length % 4294967296) % 4294967296,
              unusedBlobs := (pi.unusedBlobs + 65536 - 1) % 65536,
              usedSize := (pi.usedSize + b.length) % 4294967296,
              usedBlobs := (pi.usedBlobs + 1) % 65536 }
        dsimp only at h1 h2
        constructor
        · rw [h1]
          omega
        · rw [h2]
          omega

theorem reprocessPrefix_exact :
    ∀ (bs : List IndexBlob) (m : UsedMap) (pi : PackInfo),
      sumLen bs ≤ pi.unusedSize → bs.length ≤ pi.unusedBlobs →
      pi.usedBlobs + pi.unusedBlobs < 65536 →
      pi.usedSize + pi.unusedSize < 4294967296 →
        (reprocessPrefix m pi bs).2.usedBlobs +
            (reprocessPrefix m pi bs).2.unusedBlobs =
          pi.usedBlobs + pi.unusedBlobs ∧
        (reprocessPrefix m pi bs).2.usedSize +
            (reprocessPrefix m pi bs).2.unusedSize =
          pi.usedSize + pi.unusedSize := by
  intro bs
  induction bs with
  | nil => exact fun m pi _ _ _ _ => ⟨rfl, rfl⟩
  | cons b bs ih =>
    intro m pi hsize hcount hb1 hb2
    rw [sumLen_cons] at hsize
    rw [List.length_cons] at hcount
    unfold reprocessPrefix
    rcases hm : m b.id with - | c
    · exact ih m pi (by omega) (by omega) hb1 hb2
    · rcases c with - | k
      · exact ih m pi (by omega) (by omega) hb1 hb2
      · obtain ⟨h1, h2⟩ := ih (UsedMap.update m b.id 0)
          { pi with
              unusedSize :=
                (pi.unusedSize + 4294967296 - b.length % 4294967296) % 4294967296,
              unusedBlobs := (pi.unusedBlobs + 65536 - 1) % 65536,
              usedSize := (pi.usedSize + b.length) % 4294967296,
              usedBlobs := (pi.usedBlobs + 1) % 65536 }
          (by dsimp only; omega) (by dsimp only; omega)
          (by dsimp only; omega) (by dsimp only; omega)
        dsimp only at h1 h2
        constructor
        · rw [h1]
          omega
        · rw [h2]
          omega

theorem scanRest_mod :
    ∀ (bs : List IndexBlob) (m : UsedMap) (pi : PackInfo),
      ((scanRest m pi bs).2.usedBlobs + (scanRest m pi bs).2.unusedBlobs) % 65536 =
        (pi.usedBlobs + pi.unusedBlobs + bs.length) % 65536 ∧
      ((scanRest m pi bs).2.usedSize + (scanRest m pi bs).2.unusedSize) % 4294967296 =
        (pi.usedSize + pi.unusedSize + sumLen bs) % 4294967296 := by
  intro bs
  induction bs with
  | nil =>
    intro m pi
    refine ⟨?_, ?_⟩
    · simp only [scanRest, List.length_nil]
      omega
    · simp only [scanRest, sumLen, List.map_nil, List.sum_nil]
      omega
  | cons b bs ih =>
    intro m pi
    unfold scanRest
    rcases hm : m b.id with - | c
    · dsimp only
      obtain ⟨h1, h2⟩ := ih m (addUnused pi b)
      refine ⟨?_, ?_⟩
      · rw [h1, addUnused, List.length_cons]
        dsimp only
        omega
      · rw [h2, addUnused, sumLen_cons]
        dsimp only
        omega
    · rcases c with - | k
      · dsimp only
        obtain ⟨h1, h2⟩ := ih m (addUnused pi b)
        refine ⟨?_, ?_⟩
        · rw [h1, addUnused, List.length_cons]
          dsimp only
          omega
        · rw [h2, addUnused, sumLen_cons]
          dsimp only
          omega
      · dsimp only
        obtain ⟨h1, h2⟩ := ih (UsedMap.update m b.id 0) (addUsed pi b)
        refine ⟨?_, ?_⟩
        · rw [h1, addUsed, List.length_cons]
          dsimp only
          omega
        · rw [h2, addUsed, sumLen_cons]
          dsimp only
          omega

theorem scanRest_exact :
    ∀ (bs : List IndexBlob) (m : UsedMap) (pi : PackInfo),
      pi.usedBlobs + pi.unusedBlobs + bs.length < 65536 →
      pi.usedSize + pi.unusedSize + sumLen bs < 4294967296 →
        (scanRest m pi bs).2.usedBlobs + (scanRest m pi bs).2.unusedBlobs =
          pi.usedBlobs + pi.unusedBlobs + bs.length ∧
        (scanRest m pi bs).2.usedSize + (scanRest m pi bs).2.unusedSize =
          pi.usedSize + pi.unusedSize + sumLen bs := by
  intro bs
  induction bs with
  | nil =>
    intro m pi _ _
    refine ⟨?_, ?_⟩
    · simp only [scanRest, List.length_nil]
      omega
    · simp only [scanRest, sumLen, List.map_nil, List.sum_nil]
      omega
  | cons b bs ih =>
    intro m pi hc hs
    rw [List.length_cons] at hc
    rw [sumLen_cons] at hs
    unfold scanRest
    rcases hm : m b.id with - | c
    · dsimp only
      obtain ⟨h1, h2⟩ := ih m (addUnused pi b)
        (by simp only [addUnused]; omega) (by simp only [addUnused]; omega)
      refine ⟨?_, ?_⟩
      · rw [h1, addUnused, List.length_cons]
        dsimp only
        omega
      · rw [h2, addUnused, sumLen_cons]
        dsimp only
        omega
    · rcases c with - | k
      · dsimp only
        obtain ⟨h1, h2⟩ := ih m (addUnused pi b)
          (by simp only [addUnused]; omega) (by simp only [addUnused]; omega)
        refine ⟨?_, ?_⟩
        · rw [h1, addUnused, List.length_cons]
          dsimp only
          omega
        · rw [h2, addUnused, sumLen_cons]
          dsimp only
          omega
      · dsimp only
        obtain ⟨h1, h2⟩ := ih (UsedMap.update m b.id 0) (addUsed pi b)
          (by simp only [addUsed]; omega) (by simp only [addUsed]; omega)
        refine ⟨?_, ?_⟩
        · rw [h1, addUsed, List.length_cons]
          dsimp only
          omega
        · rw [h2, addUsed, sumLen_cons]
          dsimp only
          omega

/-- C10 (amended): `PackInfo::from_pack` conserves the pack totals up to the
wrap-around of its `u16`/`u32` counters — the used and unused blob counts
sum to the number of blobs in the pack modulo `2 ^ 16` and the used and
unused sizes sum to the total blob length modulo `2 ^ 32`; for a pack with
fewer than `2 ^ 16` blobs and total blob length below `2 ^ 32` the
conservation is exact. -/
theorem c10_from_pack_conservation_wrapped (pack : PrunePack) (m : UsedMap) :
    ((PackInfo.from_pack pack m).1.usedBlobs +
        (PackInfo.from_pack pack m).1.unusedBlobs) % 65536 =
      pack.blobs.length % 65536 ∧
    ((PackInfo.from_pack pack m).1.usedSize +
        (PackInfo.from_pack pack m).1.unusedSize) % 4294967296 =
      sumLen pack.blobs % 4294967296 ∧
    (pack.blobs.length < 65536 → sumLen pack.blobs < 4294967296 →
      (PackInfo.from_pack pack m).1.usedBlobs +
          (PackInfo.from_pack pack m).1.unusedBlobs = pack.blobs.length ∧
      (PackInfo.from_pack pack m).1.usedSize +
          (PackInfo.from_pack pack m).1.unusedSize = sumLen pack.blobs) := by
  unfold PackInfo.from_pack
  dsimp only
  split
  · rename_i m1 pi1 heq
    obtain ⟨h1, h2, h3, h4⟩ :=
      scanFirstNeeded_none_spec pack.blobs m ⟨pack.blobType, 0, 0, 0, 0⟩
        (by show (0 : Nat) < 65536; omega)
        (by show (0 : Nat) < 4294967296; omega)
        (by rw [heq])
    rw [heq] at h1 h2 h3 h4
    dsimp only at h1 h2 h3 h4 ⊢
    rw [h1, h2, h3, h4]
    refine ⟨by omega, by omega, ?_⟩
    intro hlen hsize
    exact ⟨by omega, by omega⟩
  · rename_i m1 pi1 pre rest heq
    obtain ⟨found, hbs, h1, h2, h3, h4⟩ :=
      scanFirstNeeded_some_spec pack.blobs m ⟨pack.blobType, 0, 0, 0, 0⟩ pre rest
        (by show (0 : Nat) < 65536; omega)
        (by show (0 : Nat) < 4294967296; omega)
        (by rw [heq])
    rw [heq] at h1 h2 h3 h4
    dsimp only at h1 h2 h3 h4 ⊢
    have hlen_eq : pack.blobs.length = pre.length + 1 + rest.length := by
      rw [hbs, List.length_append, List.length_cons]
      omega
    have hsum_eq : sumLen pack.blobs = sumLen pre + found.length + sumLen rest := by
      rw [hbs, sumLen_append, sumLen_cons]
      omega
    obtain ⟨hm1, hm2⟩ := reprocessPrefix_mod pre m1 pi1
    obtain ⟨hs1, hs2⟩ := scanRest_mod rest (reprocessPrefix m1 pi1 pre).1
      (reprocessPrefix m1 pi1 pre).2
    refine ⟨by omega, by omega, ?_⟩
    intro hlen hsize
    have hu : pi1.usedBlobs = 1 := by omega
    have hn : pi1.unusedBlobs = pre.length := by omega
    have hus : pi1.usedSize = found.length := by omega
    have hns : pi1.unusedSize = sumLen pre := by omega
    obtain ⟨he1, he2⟩ := reprocessPrefix_exact pre m1 pi1
      (by omega) (by omega) (by omega) (by omega)
    obtain ⟨hf1, hf2⟩ := scanRest_exact rest (reprocessPrefix m1 pi1 pre).1
      (reprocessPrefix m1 pi1 pre).2 (by omega) (by omega)
    exact ⟨by omega, by omega⟩

/-- A map in which no blob id has a counter: `get_mut` always returns
`None`. -/
def emptyUsedMap : UsedMap := fun _ => none

theorem scanFirstNeeded_emptyMap :
    ∀ (bs : List IndexBlob) (pi : PackInfo),
      (scanFirstNeeded emptyUsedMap pi bs).2.2 = none := by
  intro bs
  induction bs with
  | nil => intro pi; rfl
  | cons b bs ih =>
    intro pi
    unfold scanFirstNeeded
    dsimp only [emptyUsedMap]
    rw [Option.map_eq_none']
    exact ih (addUnused pi b)

/-- A pack with exactly `2 ^ 16` blobs of length 1 each — admissible for the
pack format, which nowhere bounds the number of blobs in a pack. -/
def c10BigPack : PrunePack :=
  ⟨9, BlobType.Data, 0, false, PackToDo.Undecided, none,
    List.replicate 65536 ⟨1, 1⟩⟩

/-- On a map with no counters every blob is unused: `from_pack` leaves the
used counters at zero and wraps the unused-blob counter at `2 ^ 16`. -/
theorem from_pack_emptyMap (pack : PrunePack) :
    (PackInfo.from_pack pack emptyUsedMap).1.usedBlobs = 0 ∧
    (PackInfo.from_pack pack emptyUsedMap).1.unusedBlobs =
      pack.blobs.length % 65536 := by
  unfold PackInfo.from_pack
  dsimp only
  split
  · rename_i m1 pi1 heq
    obtain ⟨h1, -, h3, -⟩ :=
      scanFirstNeeded_none_spec pack.blobs emptyUsedMap
        ⟨pack.blobType, 0, 0, 0, 0⟩
        (by show (0 : Nat) < 65536; omega)
        (by show (0 : Nat) < 4294967296; omega)
        (by rw [heq])
    rw [heq] at h1 h3
    dsimp only at h1 h3 ⊢
    rw [h1, h3]
    exact ⟨rfl, by omega⟩
  · rename_i m1 pi1 pre rest heq
    have h := scanFirstNeeded_emptyMap pack.blobs ⟨pack.blobType, 0, 0, 0, 0⟩
    rw [heq] at h
    cases h

/-- C10 (counterexample): on a pack with `2 ^ 16` blobs none of which is
used, the `u16` unused-blob counter of `PackInfo::from_pack` wraps to zero,
so `used_blobs + unused_blobs = 0` while the pack holds `65536` blobs — the
claimed conservation fails on the program. -/
theorem c10_counterexample :
    (PackInfo.from_pack c10BigPack emptyUsedMap).1.usedBlobs +
        (PackInfo.from_pack c10BigPack emptyUsedMap).1.unusedBlobs = 0 ∧
      c10BigPack.blobs.length = 65536 := by
  have hlen : c10BigPack.blobs.length = 65536 := by
    show (List.replicate 65536 (⟨1, 1⟩ : IndexBlob)).length = 65536
    rw [List.length_replicate]
  obtain ⟨h1, h2⟩ := from_pack_emptyMap c10BigPack
  refine ⟨?_, hlen⟩
  rw [h1, h2, hlen]

/-- Concrete small pack for the C10 witness: three blobs, one duplicate
id. -/
def c10SmallPack : PrunePack :=
  ⟨9, BlobType.Data, 0, false, PackToDo.Undecided, none,
    [⟨1, 10⟩, ⟨2, 20⟩, ⟨1, 30⟩]⟩

/-- Concrete counter map for the C10 witness: id 1 has counter 2, id 2 has
counter 0. -/
def c10SmallMap : UsedMap :=
  fun x => if x = 1 then some 2 else if x = 2 then some 0 else none

/-- Witness for C10: the amended conservation applied to a concrete small
pack, all bounds discharged concretely. -/
theorem c10_from_pack_conservation_wrapped_witness :
    c10SmallPack.blobs.length < 65536 ∧ sumLen c10SmallPack.blobs < 4294967296 ∧
    ((PackInfo.from_pack c10SmallPack c10SmallMap).1.usedBlobs +
        (PackInfo.from_pack c10SmallPack c10SmallMap).1.unusedBlobs =
      c10SmallPack.blobs.length ∧
    (PackInfo.from_pack c10SmallPack c10SmallMap).1.usedSize +
        (PackInfo.from_pack c10SmallPack c10SmallMap).1.unusedSize =
      sumLen c10SmallPack.blobs) :=
  ⟨by decide, by decide,
    (c10_from_pack_conservation_wrapped c10SmallPack c10SmallMap).2.2
      (by decide) (by decide)⟩

/-! ### C4: duplicate-pack normalization in `PrunePlan::new` -/

/-- `PruneIndex` from `commands/prune.rs`: an index file read for pruning,
with its working pack list and the `modified` flag. -/
structure PruneIndex where
  id : Nat
  modified : Bool
  packs : List PrunePack
deriving DecidableEq

/-- The duplicate filter of `PrunePlan::new`: keep the first occurrence of
each pack id (`BTreeSet::insert` succeeds), drop later duplicates; returns
the kept packs, the grown seen-set and whether any pack was dropped (the
`modified` accumulator). -/
def filterDupPacks (seen : List Nat) :
    List IndexPack → List IndexPack × List Nat × Bool
  | [] => ([], seen, false)
  | p :: ps =>
    if p.id ∈ seen then
      let res := filterDupPacks seen ps
      (res.1, res.2.1, true)
    else
      let res := filterDupPacks (p.id :: seen) ps
      (p :: res.1, res.2.1, res.2.2)

/-- The first pass of `PrunePlan::new`: per index file, filter duplicate live
packs (against `processed_packs`) and duplicate tombstoned packs (against
`processed_packs_delete`), convert them to `PrunePack`s — unmarked first,
then marked — and record whether the file was modified.  The two seen-sets
are threaded through all index files. -/
def prunePlanPass1 (seen seenDelete : List Nat) :
    List (Nat × IndexFile) → List PruneIndex × List Nat × List Nat
  | [] => ([], seen, seenDelete)
  | f :: rest =>
    let resL := filterDupPacks seen f.2.packs
    let resD := filterDupPacks seenDelete f.2.packs_to_delete
    let packs := resL.1.map PrunePack.from_index_pack_unmarked ++
      resD.1.map PrunePack.from_index_pack_marked
    let resRest := prunePlanPass1 resL.2.1 resD.2.1 rest
    (⟨f.1, resL.2.2 || resD.2.2, packs⟩ :: resRest.1, resRest.2.1, resRest.2.2)

/-- The second pass of `PrunePlan::new` (the `retain` loop): drop every
delete-marked pack whose id also occurs among the live packs
(`processed_packs`), marking the owning index file modified. -/
def prunePlanPass2 (processedPacks : List Nat) (idx : PruneIndex) : PruneIndex :=
  { idx with
    modified := idx.modified ||
      idx.packs.any (fun p => p.delete_mark && decide (p.id ∈ processedPacks)),
    packs := idx.packs.filter
      (fun p => !p.delete_mark || !(decide (p.id ∈ processedPacks))) }

/-- `PrunePlan::new` (the index normalization part): run the duplicate
filter over all index files, then remove from the delete side every pack
that is also live. -/
def prunePlanNew (indexFiles : List (Nat × IndexFile)) : List PruneIndex :=
  let res := prunePlanPass1 [] [] indexFiles
  res.1.map (prunePlanPass2 res.2.1)

/-- The index pack of the C4 counterexample. -/
def c4Pack : IndexPack := ⟨1, BlobType.Tree, none, [⟨11, 7⟩]⟩

/-- C4 (counterexample): one index file holds pack id 1 both in `packs` and
in `packs_to_delete`.  After `PrunePlan::new` the pack survives as the
single live (unmarked) pack — the delete-marked copy is the one dropped,
and the file is marked modified — contradicting the claim that the pack is
removed from the live side and appears only among the delete-marked
packs. -/
theorem c4_counterexample :
    prunePlanNew [(1, ⟨[c4Pack], [c4Pack]⟩)] =
      [⟨1, true, [PrunePack.from_index_pack_unmarked c4Pack]⟩] ∧
    (PrunePack.from_index_pack_unmarked c4Pack).delete_mark = false := by
  exact ⟨rfl, rfl⟩

theorem filterDupPacks_seen (x : Nat) :
    ∀ (ps : List IndexPack) (seen : List Nat),
      x ∈ (filterDupPacks seen ps).2.1 ↔ x ∈ seen ∨ x ∈ ps.map IndexPack.id := by
  intro ps
  induction ps with
  | nil => intro seen; simp [filterDupPacks]
  | cons p ps ih =>
    intro seen
    unfold filterDupPacks
    split
    · rename_i hdup
      dsimp only
      rw [ih seen]
      simp only [List.map_cons, List.mem_cons]
      constructor
      · rintro (h | h)
        · exact Or.inl h
        · exact Or.inr (Or.inr h)
      · rintro (h | rfl | h)
        · exact Or.inl h
        · exact Or.inl hdup
        · exact Or.inr h
    · dsimp only
      rw [ih (p.id :: seen)]
      simp only [List.map_cons, List.mem_cons]
      tauto

theorem filterDupPacks_keeps (x : Nat) :
    ∀ (ps : List IndexPack) (seen : List Nat), x ∉ seen →
      x ∈ ps.map IndexPack.id →
      ∃ p ∈ (filterDupPacks seen ps).1, p.id = x := by
  intro ps
  induction ps with
  | nil =>
    intro seen _ h
    simp at h
  | cons p ps ih =>
    intro seen hx hmem
    rw [List.map_cons, List.mem_cons] at hmem
    unfold filterDupPacks
    split
    · rename_i hdup
      dsimp only
      have hxp : x ≠ p.id := fun h => hx (h ▸ hdup)
      have hmem' : x ∈ ps.map IndexPack.id := by
        rcases hmem with h | h
        · exact absurd h hxp
        · exact h
      exact ih seen hx hmem'
    · rename_i hdup
      dsimp only
      by_cases hxp : x = p.id
      · exact ⟨p, List.mem_cons_self _ _, hxp.symm⟩
      · have hmem' : x ∈ ps.map IndexPack.id := by
          rcases hmem with h | h
          · exact absurd h hxp
          · exact h
        have hx' : x ∉ p.id :: seen := by
          rw [List.mem_cons]
          rintro (h | h)
          · exact hxp h
          · exact hx h
        obtain ⟨q, hq, hqx⟩ := ih (p.id :: seen) hx' hmem'
        exact ⟨q, List.mem_cons_of_mem p hq, hqx⟩

theorem filterDupPacks_modified (x : Nat) :
    ∀ (ps : List IndexPack) (seen : List Nat), x ∈ seen →
      x ∈ ps.map IndexPack.id →
      (filterDupPacks seen ps).2.2 = true := by
  intro ps
  induction ps with
  | nil =>
    intro seen _ h
    simp at h
  | cons p ps ih =>
    intro seen hx hmem
    rw [List.map_cons, List.mem_cons] at hmem
    unfold filterDupPacks
    split
    · rfl
    · rename_i hdup
      dsimp only
      have hxp : x ≠ p.id := by
        rintro rfl
        exact hdup hx
      have hmem' : x ∈ ps.map IndexPack.id := by
        rcases hmem with h | h
        · exact absurd h hxp
        · exact h
      exact ih (p.id :: seen) (List.mem_cons_of_mem _ hx) hmem'

theorem prunePlanPass1_seen (x : Nat) :
    ∀ (files : List (Nat × IndexFile)) (seen seenDelete : List Nat),
      x ∈ (prunePlanPass1 seen seenDelete files).2.1 ↔
        x ∈ seen ∨ ∃ f ∈ files, x ∈ f.2.packs.map IndexPack.id := by
  intro files
  induction files with
  | nil =>
    intro seen seenDelete
    simp [prunePlanPass1]
  | cons f rest ih =>
    intro seen seenDelete
    unfold prunePlanPass1
    dsimp only
    rw [ih, filterDupPacks_seen]
    constructor
    · rintro ((h | h) | ⟨g, hg, hx⟩)
      · exact Or.inl h
      · exact Or.inr ⟨f, List.mem_cons_self _ _, h⟩
      · exact Or.inr ⟨g, List.mem_cons_of_mem f hg, hx⟩
    · rintro (h | ⟨g, hg, hx⟩)
      · exact Or.inl (Or.inl h)
      · rcases List.mem_cons.mp hg with rfl | hg
        · exact Or.inl (Or.inr hx)
        · exact Or.inr ⟨g, hg, hx⟩

theorem prunePlanPass1_live (x : Nat) :
    ∀ (files : List (Nat × IndexFile)) (seen seenDelete : List Nat), x ∉ seen →
      (∃ f ∈ files, x ∈ f.2.packs.map IndexPack.id) →
      ∃ idx ∈ (prunePlanPass1 seen seenDelete files).1, ∃ p ∈ idx.packs,
        p.id = x ∧ p.delete_mark = false := by
  intro files
  induction files with
  | nil =>
    rintro seen seenDelete _ ⟨f, hf, -⟩
    cases hf
  | cons f rest ih =>
    intro seen seenDelete hx hmem
    unfold prunePlanPass1
    dsimp only
    by_cases hf : x ∈ f.2.packs.map IndexPack.id
    · obtain ⟨q, hq, hqx⟩ := filterDupPacks_keeps x f.2.packs seen hx hf
      refine ⟨_, List.mem_cons_self _ _, PrunePack.from_index_pack_unmarked q, ?_, hqx, rfl⟩
      exact List.mem_append.mpr (Or.inl (List.mem_map_of_mem _ hq))
    · have hmem' : ∃ g ∈ rest, x ∈ g.2.packs.map IndexPack.id := by
        obtain ⟨g, hg, hgx⟩ := hmem
        rcases List.mem_cons.mp hg with rfl | hg
        · exact absurd hgx hf
        · exact ⟨g, hg, hgx⟩
      have hx' : x ∉ (filterDupPacks seen f.2.packs).2.1 := by
        rw [filterDupPacks_seen]
        rintro (h | h)
        · exact hx h
        · exact hf h
      obtain ⟨idx, hidx, hp⟩ := ih _ _ hx' hmem'
      exact ⟨idx, List.mem_cons_of_mem _ hidx, hp⟩

theorem prunePlanPass1_zip_modified (x : Nat) (processed : List Nat)
    (hx : x ∈ processed) :
    ∀ (files : List (Nat × IndexFile)) (seen seenDelete : List Nat)
      (pr : (Nat × IndexFile) × PruneIndex),
      pr ∈ files.zip
        ((prunePlanPass1 seen seenDelete files).1.map (prunePlanPass2 processed)) →
      x ∈ pr.1.2.packs_to_delete.map IndexPack.id → pr.2.modified = true := by
  intro files
  induction files with
  | nil =>
    intro seen seenDelete pr hpr _
    cases hpr
  | cons f rest ih =>
    intro seen seenDelete pr hpr hdel
    unfold prunePlanPass1 at hpr
    dsimp only at hpr
    rw [List.map_cons, List.zip_cons_cons, List.mem_cons] at hpr
    rcases hpr with rfl | hpr
    · dsimp only at hdel ⊢
      unfold prunePlanPass2
      dsimp only
      by_cases hd : x ∈ seenDelete
      · rw [filterDupPacks_modified x f.2.packs_to_delete seenDelete hd hdel]
        simp
      · obtain ⟨q, hq, hqx⟩ :=
          filterDupPacks_keeps x f.2.packs_to_delete seenDelete hd hdel
        have hany : (((filterDupPacks seen f.2.packs).1.map
              PrunePack.from_index_pack_unmarked ++
            (filterDupPacks seenDelete f.2.packs_to_delete).1.map
              PrunePack.from_index_pack_marked).any
            (fun p => p.delete_mark && decide (p.id ∈ processed))) = true := by
          rw [List.any_eq_true]
          refine ⟨PrunePack.from_index_pack_marked q, ?_, ?_⟩
          · exact List.mem_append.mpr (Or.inr (List.mem_map_of_mem _ hq))
          · show (true && decide (q.id ∈ processed)) = true
            rw [Bool.true_and, decide_eq_true_eq, hqx]
            exact hx
        rw [hany]
        simp
    · exact ih _ _ pr hpr hdel

/-- C4 (amended): during index normalization in `PrunePlan::new`, a pack id
appearing both in a live `packs` list and in a `packs_to_delete` list across
the loaded index files is removed from the DELETE side: after the
normalization the pack appears among the live (unmarked) packs, no
delete-marked pack with that id remains anywhere, and the index file owning
the delete-marked duplicate is marked `modified`. -/
theorem c4_normalize_spec (files : List (Nat × IndexFile)) (x : Nat)
    (hlive : ∃ f ∈ files, x ∈ f.2.packs.map IndexPack.id) :
    (∃ idx ∈ prunePlanNew files, ∃ p ∈ idx.packs,
      p.id = x ∧ p.delete_mark = false) ∧
    (∀ idx ∈ prunePlanNew files, ∀ p ∈ idx.packs, p.id = x →
      p.delete_mark = false) ∧
    (∀ pr ∈ files.zip (prunePlanNew files),
      x ∈ pr.1.2.packs_to_delete.map IndexPack.id → pr.2.modified = true) := by
  have hproc : x ∈ (prunePlanPass1 [] [] files).2.1 :=
    (prunePlanPass1_seen x files [] []).mpr (Or.inr hlive)
  refine ⟨?_, ?_, ?_⟩
  · obtain ⟨idx, hidx, p, hp, hpx, hpd⟩ :=
      prunePlanPass1_live x files [] [] (by simp) hlive
    refine ⟨prunePlanPass2 (prunePlanPass1 [] [] files).2.1 idx,
      List.mem_map_of_mem _ hidx, p, ?_, hpx, hpd⟩
    unfold prunePlanPass2
    dsimp only
    rw [List.mem_filter]
    refine ⟨hp, ?_⟩
    rw [hpd]
    rfl
  · intro idx hidx p hp hpx
    unfold prunePlanNew at hidx
    rw [List.mem_map] at hidx
    obtain ⟨idx0, -, rfl⟩ := hidx
    unfold prunePlanPass2 at hp
    dsimp only at hp
    rw [List.mem_filter] at hp
    have hcond := hp.2
    rw [Bool.or_eq_true, Bool.not_eq_true', Bool.not_eq_true'] at hcond
    rcases hcond with h | h
    · exact h
    · rw [decide_eq_false_iff_not] at h
      exact absurd (hpx ▸ hproc) h
  · intro pr hpr hdel
    exact prunePlanPass1_zip_modified x (prunePlanPass1 [] [] files).2.1 hproc
      files [] [] pr hpr hdel

/-- Witness for C4: the concrete one-file input of the counterexample,
with pack id 1 in both lists; the amended claim is applied to it. -/
theorem c4_normalize_spec_witness :
    (∃ idx ∈ prunePlanNew [(1, ⟨[c4Pack], [c4Pack]⟩)], ∃ p ∈ idx.packs,
      p.id = 1 ∧ p.delete_mark = false) ∧
    (∀ pr ∈ [(1, (⟨[c4Pack], [c4Pack]⟩ : IndexFile))].zip
        (prunePlanNew [(1, ⟨[c4Pack], [c4Pack]⟩)]),
      1 ∈ pr.1.2.packs_to_delete.map IndexPack.id → pr.2.modified = true) :=
  ⟨(c4_normalize_spec [(1, ⟨[c4Pack], [c4Pack]⟩)] 1 (by decide)).1,
    (c4_normalize_spec [(1, ⟨[c4Pack], [c4Pack]⟩)] 1 (by decide)).2.2⟩

end RusticCore
